import Mathlib

/-!
Verification of a physics-informed neural network training script
(1-D wave equation solved by collocation + automatic differentiation).

The development shallowly embeds the script:
* column tensors of shape `[N,1]` are `List ℝ` of length `N`;
* the neural model is abstracted as a `Model`: a smooth scalar function of
  (space, time) together with the exact partial derivatives that the
  reverse-mode engine extracts for it (`dx n` / `dt n` is the n-th partial);
* the derivative helper `df` is additionally modelled operationally over a
  symbolic expression graph (`Expr`), where one reverse-mode pass with an
  all-ones weighting of a batched elementwise output is the elementwise
  symbolic derivative;
* graph tracking (`requires_grad`) is a boolean flag on tensors, and a
  derivative taken with respect to an untracked tensor is the
  graph-disconnected error branch of `torch.autograd.grad`.
-/

namespace PINN

/-- `l.pow(2)`: elementwise square of a tensor. -/
def sqList (l : List ℝ) : List ℝ := l.map (fun r => r ^ 2)

/-- `l.mean()`: arithmetic mean of a tensor's entries. -/
noncomputable def mean (l : List ℝ) : ℝ := l.sum / l.length

/-- `torch.ones_like v` for a column tensor. -/
def onesLike (l : List ℝ) : List ℝ := l.map (fun _ => (1 : ℝ))

/-- `torch.zeros_like v` for a column tensor. -/
def zerosLike (l : List ℝ) : List ℝ := l.map (fun _ => (0 : ℝ))

/-- The abstract differentiable field model `simple_NN2`: a smooth scalar
function `f` of (space, time) together with the exact partial derivatives
the autograd engine extracts from its graph: `dx n` (resp. `dt n`) is the
n-th partial derivative with respect to the spatial (resp. temporal) input,
with `dx 0 = dt 0 = f`. -/
structure Model where
  f : ℝ → ℝ → ℝ
  dx : ℕ → ℝ → ℝ → ℝ
  dt : ℕ → ℝ → ℝ → ℝ
  dx_zero : dx 0 = f
  dt_zero : dt 0 = f

/-- Batched forward pass `model(x, t)` over a pair of `[N,1]` tensors. -/
def Model.evalB (m : Model) (x t : List ℝ) : List ℝ := List.zipWith m.f x t

/-- `dfdx(model, x, t, order)`: forward pass followed by `order`
graph-preserving reverse passes with respect to the spatial input;
on the smooth model this extracts the exact `order`-th spatial partial
at every batched point. -/
def dfdxB (m : Model) (x t : List ℝ) (order : ℕ) : List ℝ :=
  List.zipWith (m.dx order) x t

/-- `dfdt(model, x, t, order)`: same as `dfdxB` but with respect to time. -/
def dfdtB (m : Model) (x t : List ℝ) (order : ℕ) : List ℝ :=
  List.zipWith (m.dt order) x t

/-- `initial_condition(x) = torch.sin(2*pi*x) * 0.5`. -/
noncomputable def initial_condition (x : List ℝ) : List ℝ :=
  x.map (fun a => Real.sin (2 * Real.pi * a) * 0.5)

/-- `pde_loss = dfdx(model,x,t,2) - (1/C**2) * dfdt(model,x,t,2)`. -/
noncomputable def pde_loss (m : Model) (x t : List ℝ) (C : ℝ) : List ℝ :=
  List.zipWith (fun a b => a - 1 / C ^ 2 * b) (dfdxB m x t 2) (dfdtB m x t 2)

/-- `boundary_loss_x0 = model(ones_like(t_idx) * x[0], t_idx)`. -/
def boundary_loss_x0 (m : Model) (x t_idx : List ℝ) : List ℝ :=
  m.evalB (t_idx.map (fun _ => x.headD 0)) t_idx

/-- `boundary_loss_x1 = model(ones_like(t_idx) * x[-1], t_idx)`. -/
def boundary_loss_x1 (m : Model) (x t_idx : List ℝ) : List ℝ :=
  m.evalB (t_idx.map (fun _ => x.getLastD 0)) t_idx

/-- `initial_loss_f = model(x_idx, t_initial) - initial_condition(x_idx)`
where `t_initial = zeros_like(x_idx)`. -/
noncomputable def initial_loss_f (m : Model) (x_idx : List ℝ) : List ℝ :=
  List.zipWith (fun a b => a - b) (m.evalB x_idx (zerosLike x_idx))
    (initial_condition x_idx)

/-- `initial_loss_df = dfdt(model, x_idx, t_initial, order=1)`
with the same `t_initial = zeros_like(x_idx)`. -/
def initial_loss_df (m : Model) (x_idx : List ℝ) : List ℝ :=
  dfdtB m x_idx (zerosLike x_idx) 1

/-- The value of the final loss of `compute_loss` (lines 119-124 of the
script): each residual squared elementwise, averaged, and summed. -/
noncomputable def computeLossValue (m : Model) (x t x_idx t_idx : List ℝ)
    (C : ℝ) : ℝ :=
  mean (sqList (pde_loss m x t C)) +
    mean (sqList (boundary_loss_x0 m x t_idx)) +
    mean (sqList (boundary_loss_x1 m x t_idx)) +
    mean (sqList (initial_loss_f m x_idx)) +
    mean (sqList (initial_loss_df m x_idx))

/-- A tensor together with its graph-tracking state: `tracked = true` means
`requires_grad` is set (the tensor is a differentiable graph input or is
derived from one). -/
structure TT where
  data : List ℝ
  tracked : Bool

/-- The graph-disconnected error branch of `torch.autograd.grad`: raised
when the differentiated tensor is not tracked / not on the graph path. -/
inductive AutogradError where
  | graphDisconnected

/-- `dfdx(model, x, t, order)` on tracked tensors: the forward pass
`f_value = model(x, t)` followed by `order` reverse passes with respect to
`x`; if `x` is not tracked the engine raises the graph-disconnected error,
otherwise it extracts the exact batched `order`-th spatial partial. -/
def dfdxT (m : Model) (x t : TT) (order : ℕ) : Except AutogradError (List ℝ) :=
  if x.tracked then .ok (dfdxB m x.data t.data order) else .error .graphDisconnected

/-- `dfdt(model, x, t, order)` on tracked tensors, with respect to `t`. -/
def dfdtT (m : Model) (x t : TT) (order : ℕ) : Except AutogradError (List ℝ) :=
  if t.tracked then .ok (dfdtB m x.data t.data order) else .error .graphDisconnected

/-- `t_initial`: `torch.zeros_like(x_idx)` followed by
`t_initial.requires_grad = True` (lines 113-114 of the script). -/
def t_initialOf (x_idx : TT) : TT := ⟨zerosLike x_idx.data, true⟩

/-- `compute_loss(model, x, t, x_idx, t_idx, C)` with graph tracking made
explicit, mirroring lines 102-126 of the script statement by statement. -/
noncomputable def compute_loss (m : Model) (x t x_idx t_idx : TT) (C : ℝ) :
    Except AutogradError ℝ := do
  -- PDE
  let pde_x ← dfdxT m x t 2
  let pde_t ← dfdtT m x t 2
  let pdeL := List.zipWith (fun a b => a - 1 / C ^ 2 * b) pde_x pde_t
  -- boundary conditions
  let boundary_x0 : TT := ⟨t_idx.data.map (fun _ => x.data.headD 0), true⟩
  let boundaryL0 := m.evalB boundary_x0.data t_idx.data
  let boundary_x1 : TT := ⟨t_idx.data.map (fun _ => x.data.getLastD 0), true⟩
  let boundaryL1 := m.evalB boundary_x1.data t_idx.data
  -- initial conditions
  let f_init := initial_condition x_idx.data
  let t_init := t_initialOf x_idx
  let initL := List.zipWith (fun a b => a - b) (m.evalB x_idx.data t_init.data) f_init
  let initDL ← dfdtT m x_idx t_init 1
  -- obtain the final loss by averaging each term and summing them up
  return mean (sqList pdeL) + mean (sqList boundaryL0) + mean (sqList boundaryL1) +
    mean (sqList initL) + mean (sqList initDL)

/-- When the interior grid tensors are tracked, `compute_loss` takes the
ok branch and returns exactly the pure five-term value. -/
theorem compute_loss_eq_ok (m : Model) (x t x_idx t_idx : TT) (C : ℝ)
    (hx : x.tracked = true) (ht : t.tracked = true) :
    compute_loss m x t x_idx t_idx C =
      .ok (computeLossValue m x.data t.data x_idx.data t_idx.data C) := by
  simp only [compute_loss, dfdxT, dfdtT, hx, ht, t_initialOf, computeLossValue,
    pde_loss, boundary_loss_x0, boundary_loss_x1, initial_loss_f,
    initial_loss_df, if_pos, bind, Except.bind, pure, Except.pure]

/-- `torch.linspace(a, b, steps)`: `steps` evenly spaced points from `a`
to `b` inclusive; point `i` is `a + i * (b - a) / (steps - 1)`.  (For
`steps = 1` the stride divides by zero, which Lean's convention `r / 0 = 0`
makes the single point `a`, matching the library.) -/
noncomputable def linspace (a b : ℝ) (steps : ℕ) : List ℝ :=
  (List.range steps).map
    (fun i : ℕ => a + (i : ℝ) * ((b - a) / ((steps - 1 : ℕ) : ℝ)))

/-- The first component of `torch.meshgrid(xs, ts, indexing="ij")`,
flattened row-major: each `xs` entry repeated `ts.length` times. -/
def meshgridX (xs ts : List ℝ) : List ℝ :=
  xs.flatMap (fun a => ts.map (fun _ => a))

/-- The second component of `torch.meshgrid(xs, ts, indexing="ij")`,
flattened row-major: the list `ts` repeated `xs.length` times. -/
def meshgridT (xs ts : List ℝ) : List ℝ :=
  xs.flatMap (fun _ => ts)

/-- Lines 131-137 of the script: build the tracked collocation tensors
`(x, t, x_idx, t_idx)` from domain bounds and point counts.  `x_idx` and
`t_idx` are created with `requires_grad=True`; `x` and `t` are reshaped
views of the meshgrid of those tracked tensors, hence tracked as well. -/
noncomputable def buildGrids (x0 x1 : ℝ) (nx : ℕ) (t0 t1 : ℝ) (nt : ℕ) :
    TT × TT × TT × TT :=
  let x_idx := linspace x0 x1 nx
  let t_idx := linspace t0 t1 nt
  (⟨meshgridX x_idx t_idx, true⟩, ⟨meshgridT x_idx t_idx, true⟩,
    ⟨x_idx, true⟩, ⟨t_idx, true⟩)

theorem linspace_length (a b : ℝ) (steps : ℕ) :
    (linspace a b steps).length = steps := by
  rw [linspace, List.length_map, List.length_range]

theorem linspace_headD (a b : ℝ) (steps : ℕ) (h : 1 ≤ steps) :
    (linspace a b steps).headD 0 = a := by
  cases steps with
  | zero => omega
  | succ n =>
      rw [linspace, List.range_succ_eq_map, List.map_cons, List.headD_cons]
      push_cast
      ring

theorem meshgridX_length (xs ts : List ℝ) :
    (meshgridX xs ts).length = xs.length * ts.length := by
  induction xs with
  | nil => simp [meshgridX]
  | cons a l ih =>
      rw [meshgridX, List.flatMap_cons, List.length_append, List.length_map,
        ← meshgridX, ih, List.length_cons]
      ring

theorem meshgridT_length (xs ts : List ℝ) :
    (meshgridT xs ts).length = xs.length * ts.length := by
  induction xs with
  | nil => simp [meshgridT]
  | cons a l ih =>
      rw [meshgridT, List.flatMap_cons, List.length_append, ← meshgridT, ih,
        List.length_cons]
      ring

theorem linspace_getLastD (a b : ℝ) (steps : ℕ) (h : 2 ≤ steps) :
    (linspace a b steps).getLastD 0 = b := by
  obtain ⟨n, rfl⟩ : ∃ n, steps = n + 1 := ⟨steps - 1, by omega⟩
  rw [linspace, List.range_succ, List.map_append, List.map_cons, List.map_nil,
    List.getLastD_concat, Nat.add_sub_cancel]
  have hn : (n : ℝ) ≠ 0 := Nat.cast_ne_zero.mpr (by omega)
  field_simp

theorem meshgridX_headD (xs ts : List ℝ) (hts : ts ≠ []) :
    (meshgridX xs ts).headD 0 = xs.headD 0 := by
  cases xs with
  | nil => simp [meshgridX]
  | cons a l =>
      cases ts with
      | nil => exact absurd rfl hts
      | cons b r => simp [meshgridX]

theorem meshgridX_getLastD (xs ts : List ℝ) (hxs : xs ≠ []) (hts : ts ≠ []) :
    (meshgridX xs ts).getLastD 0 = xs.getLastD 0 := by
  obtain ⟨q, y, rfl⟩ : ∃ q y, xs = q ++ [y] := by
    rcases List.eq_nil_or_concat xs with h | ⟨q, y, h⟩
    · exact absurd h hxs
    · exact ⟨q, y, by simpa [List.concat_eq_append] using h⟩
  obtain ⟨r, z, rfl⟩ : ∃ r z, ts = r ++ [z] := by
    rcases List.eq_nil_or_concat ts with h | ⟨r, z, h⟩
    · exact absurd h hts
    · exact ⟨r, z, by simpa [List.concat_eq_append] using h⟩
  rw [meshgridX, List.flatMap_append, List.flatMap_cons, List.flatMap_nil,
    List.append_nil, List.map_append, List.map_cons, List.map_nil,
    ← List.append_assoc, List.getLastD_concat, List.getLastD_concat]

theorem linspace_pairwise_lt (a b : ℝ) (steps : ℕ) (h2 : 2 ≤ steps)
    (hab : a < b) : (linspace a b steps).Pairwise (· < ·) := by
  rw [linspace]
  have hd : 0 < (b - a) / ((steps - 1 : ℕ) : ℝ) := by
    apply div_pos (by linarith)
    have h1 : (0 : ℕ) < steps - 1 := by omega
    exact_mod_cast h1
  refine List.Pairwise.map _ ?_ (List.pairwise_lt_range steps)
  intro i j hij
  have hc : (i : ℝ) < (j : ℝ) := by exact_mod_cast hij
  have := mul_lt_mul_of_pos_right hc hd
  linarith

theorem linspace_evenly_spaced (a b : ℝ) (steps i : ℕ)
    (hi1 : i + 1 < (linspace a b steps).length)
    (hi : i < (linspace a b steps).length) :
    (linspace a b steps).get ⟨i + 1, hi1⟩ - (linspace a b steps).get ⟨i, hi⟩ =
      (b - a) / ((steps - 1 : ℕ) : ℝ) := by
  simp only [linspace, List.get_eq_getElem, List.getElem_map, List.getElem_range]
  push_cast
  ring

/-- One epoch of the training loop body (lines 146-151): compute the loss,
clear the accumulated gradients, run one backward pass, apply one optimizer
update.  The optimizer is the replaceable black box `update`. -/
structure TrainState (P : Type) where
  params : P
  epoch : ℕ

/-- One gradient-descent step: the new parameters are produced by the
optimizer update from the current parameters and the loss computed on them;
the epoch counter advances by one.  There is no retry path. -/
def trainStep {P : Type} (lossOf : P → ℝ) (update : P → ℝ → P)
    (s : TrainState P) : TrainState P :=
  { params := update s.params (lossOf s.params), epoch := s.epoch + 1 }

/-- `for ep in range(epochs)`: apply the step body once per epoch; the
recursion is structural in the remaining epoch count, so the loop always
terminates. -/
def trainLoop {P : Type} (step : P → P) : ℕ → P → P
  | 0, s => s
  | n + 1, s => trainLoop step n (step s)

/-- The four phases each epoch performs, in order. -/
inductive TrainPhase where
  | lossComputation
  | gradientClearing
  | backwardPass
  | optimizerUpdate
  deriving DecidableEq

/-- The phase schedule of one epoch of the loop body. -/
def epochPhases : List TrainPhase :=
  [.lossComputation, .gradientClearing, .backwardPass, .optimizerUpdate]

/-- The full schedule of the training loop: each epoch index paired with
the phases its body performs. -/
def trainSchedule (epochs : ℕ) : List (ℕ × List TrainPhase) :=
  (List.range epochs).map (fun ep => (ep, epochPhases))

theorem trainLoop_epoch {P : Type} (lossOf : P → ℝ) (update : P → ℝ → P) :
    ∀ (n : ℕ) (s : TrainState P),
      (trainLoop (trainStep lossOf update) n s).epoch = s.epoch + n := by
  intro n
  induction n with
  | zero => intro s; rfl
  | succ k ih =>
      intro s
      rw [trainLoop, ih]
      simp [trainStep]
      omega

/-- The diagnostic line printed every 300th epoch (line 154):
`print(f"epoch: {ep}, loss: {loss...}")`.  The float formatting of the
loss value is abstracted as an already-rendered string. -/
def logLine (ep : ℕ) (lossStr : String) : String :=
  "epoch: " ++ toString ep ++ ", loss: " ++ lossStr

/-- The sequence of (epoch, rendered line) pairs the training loop emits:
epoch `ep` of `range epochs` contributes a line exactly when
`ep % interval == 0`.  `fmt ep` is the rendered loss value at epoch `ep`. -/
def trainerLog (epochs interval : ℕ) (fmt : ℕ → String) : List (ℕ × String) :=
  (List.range epochs).filterMap
    (fun ep => if ep % interval = 0 then some (ep, logLine ep (fmt ep)) else none)

/-- Which of the two network inputs a derivative is taken with respect to. -/
inductive Var where
  | X
  | T
  deriving DecidableEq

/-- The computational graph of a batched elementwise scalar computation in
the two tracked inputs: what the autograd engine records for a smooth
model's forward pass (constants, the inputs, sums and products of smooth
subgraphs). -/
inductive Expr where
  | X
  | T
  | const (c : ℚ)
  | add (e₁ e₂ : Expr)
  | mul (e₁ e₂ : Expr)
  deriving DecidableEq

/-- The value computed by a graph at one batched point `(x, t)`. -/
noncomputable def evalE : Expr → ℝ → ℝ → ℝ
  | .X, x, _ => x
  | .T, _, t => t
  | .const c, _, _ => (c : ℝ)
  | .add e₁ e₂, x, t => evalE e₁ x t + evalE e₂ x t
  | .mul e₁ e₂, x, t => evalE e₁ x t * evalE e₂ x t

/-- The graph the reverse-mode engine builds (with `create_graph=True`) for
the derivative of a graph with respect to one input: the exact derivative
rules the engine applies node by node. -/
def derivE (v : Var) : Expr → Expr
  | .X => if v = .X then .const 1 else .const 0
  | .T => if v = .T then .const 1 else .const 0
  | .const _ => .const 0
  | .add e₁ e₂ => .add (derivE v e₁) (derivE v e₂)
  | .mul e₁ e₂ => .add (.mul (derivE v e₁) e₂) (.mul e₁ (derivE v e₂))

/-- `df(output, input_var, order)` at graph level (lines 40-48): starting
from the forward graph, each of the `order` iterations replaces the current
graph by its reverse-mode derivative graph with respect to `input_var`
(the all-ones `grad_outputs` weighting of a batched elementwise output
reduces the vector-Jacobian product to the elementwise derivative —
established separately by `gradPass_ones`). -/
def dfSym (e : Expr) (v : Var) : ℕ → Expr
  | 0 => e
  | n + 1 => dfSym (derivE v e) v n

/-- Batched evaluation of a graph over paired `[N,1]` input tensors. -/
noncomputable def evalBatch (e : Expr) (xs ts : List ℝ) : List ℝ :=
  (xs.zip ts).map (fun p => evalE e p.1 p.2)

/-- One reverse-mode pass of `torch.autograd.grad(output, input_var,
grad_outputs=w)` on a batched elementwise graph: the vector-Jacobian
product weights entry `i` of the elementwise derivative by `w i` (the
Jacobian of a batched computation with no cross-batch coupling is
diagonal). -/
noncomputable def gradPass (e : Expr) (v : Var) (w : List ℝ)
    (xs ts : List ℝ) : List ℝ :=
  List.zipWith (fun wi p => wi * evalE (derivE v e) p.1 p.2) w (xs.zip ts)

/-- The batched value of `df(output, input_var, order)`. -/
noncomputable def dfBatch (e : Expr) (v : Var) (order : ℕ)
    (xs ts : List ℝ) : List ℝ :=
  evalBatch (dfSym e v order) xs ts

/-- The tensor the helper's `torch.ones_like(input_var)` picks for the
variable being differentiated against. -/
def inputOf (v : Var) (xs ts : List ℝ) : List ℝ :=
  match v with
  | .X => xs
  | .T => ts

theorem onesLike_eq_replicate (l : List ℝ) :
    onesLike l = List.replicate l.length 1 := by
  induction l with
  | nil => rfl
  | cons a r ih =>
      rw [onesLike, List.map_cons, ← onesLike, ih, List.length_cons,
        List.replicate_succ]

theorem zipWith_replicate_left {α β : Type} (f : ℝ → α → β) (c : ℝ) :
    ∀ (n : ℕ) (l : List α), l.length ≤ n →
      List.zipWith f (List.replicate n c) l = l.map (f c) := by
  intro n
  induction n with
  | zero =>
      intro l hl
      rw [Nat.le_zero] at hl
      rw [List.length_eq_zero] at hl
      subst hl
      rfl
  | succ k ih =>
      intro l hl
      cases l with
      | nil => rfl
      | cons a r =>
          rw [List.replicate_succ, List.zipWith_cons_cons, List.map_cons,
            ih r (by simpa using hl)]

/-- With the all-ones weighting, one reverse-mode pass is exactly the
batched elementwise derivative. -/
theorem gradPass_ones (e : Expr) (v : Var) (xs ts : List ℝ)
    (h : xs.length = ts.length) :
    gradPass e v (onesLike (inputOf v xs ts)) xs ts =
      evalBatch (derivE v e) xs ts := by
  rw [gradPass, onesLike_eq_replicate, evalBatch,
    zipWith_replicate_left _ _ _ _ (by cases v <;> simp [inputOf, h])]
  simp

theorem evalB_map_left (m : Model) (g : ℝ → ℝ) (l : List ℝ) :
    m.evalB (l.map g) l = l.map (fun b => m.f (g b) b) := by
  rw [Model.evalB, List.zipWith_map_left, List.zipWith_same]

theorem evalB_map_right (m : Model) (g : ℝ → ℝ) (l : List ℝ) :
    m.evalB l (l.map g) = l.map (fun a => m.f a (g a)) := by
  rw [Model.evalB, List.zipWith_map_right, List.zipWith_same]

/-- A concrete smooth model used to instantiate the theorems below on
explicit inputs. -/
def mWitness : Model where
  f := fun a b => a + b
  dx := fun _ a b => a + b
  dt := fun _ a b => a + b
  dx_zero := rfl
  dt_zero := rfl

/-- C1.  The total loss returned by `compute_loss` is the unweighted sum of
exactly five mean-of-squares terms — `mean(pde_loss²) +
mean(boundary_loss_x0²) + mean(boundary_loss_x1²) + mean(initial_loss_f²) +
mean(initial_loss_df²)` — with no per-term scaling coefficients; the only
scaling is the `1/C²` factor inside `pde_loss` itself. -/
theorem total_loss_is_unweighted_five_term_sum (m : Model)
    (x t x_idx t_idx : TT) (C : ℝ)
    (hx : x.tracked = true) (ht : t.tracked = true) :
    compute_loss m x t x_idx t_idx C =
      .ok (mean (sqList (pde_loss m x.data t.data C)) +
        mean (sqList (boundary_loss_x0 m x.data t_idx.data)) +
        mean (sqList (boundary_loss_x1 m x.data t_idx.data)) +
        mean (sqList (initial_loss_f m x_idx.data)) +
        mean (sqList (initial_loss_df m x_idx.data))) :=
  compute_loss_eq_ok m x t x_idx t_idx C hx ht

/-- Witness for C1 at a concrete model and concrete tracked tensors. -/
theorem total_loss_is_unweighted_five_term_sum_witness :
    (TT.mk [0] true).tracked = true ∧
      compute_loss mWitness ⟨[0], true⟩ ⟨[0], true⟩ ⟨[0], true⟩ ⟨[0], true⟩ 1 =
        .ok (mean (sqList (pde_loss mWitness [0] [0] 1)) +
          mean (sqList (boundary_loss_x0 mWitness [0] [0])) +
          mean (sqList (boundary_loss_x1 mWitness [0] [0])) +
          mean (sqList (initial_loss_f mWitness [0])) +
          mean (sqList (initial_loss_df mWitness [0]))) :=
  ⟨rfl, total_loss_is_unweighted_five_term_sum mWitness
    ⟨[0], true⟩ ⟨[0], true⟩ ⟨[0], true⟩ ⟨[0], true⟩ 1 rfl rfl⟩

/-- C2.  At every interior collocation point, the PDE residual equals
`∂²f/∂x² − (1/C²)·∂²f/∂t²`: entry `i` of `pde_loss` is the order-2 spatial
derivative extraction minus `1/C²` times the order-2 temporal derivative
extraction of the same model forward evaluation at `(x i, t i)`. -/
theorem pde_residual_pointwise (m : Model) (x t : List ℝ) (C : ℝ) (i : ℕ)
    (hp : i < (pde_loss m x t C).length)
    (hx : i < x.length) (ht : i < t.length) :
    (pde_loss m x t C).get ⟨i, hp⟩ =
      m.dx 2 (x.get ⟨i, hx⟩) (t.get ⟨i, ht⟩) -
        1 / C ^ 2 * m.dt 2 (x.get ⟨i, hx⟩) (t.get ⟨i, ht⟩) := by
  simp [pde_loss, dfdxB, dfdtB, List.get_eq_getElem, List.getElem_zipWith]

/-- Witness for C2 at a concrete model, point lists and index. -/
theorem pde_residual_pointwise_witness :
    (0 < (pde_loss mWitness [5] [7] 1).length ∧ 0 < 1 ∧ 0 < 1) ∧
      (pde_loss mWitness [5] [7] 1).get
          ⟨0, by simp [pde_loss, dfdxB, dfdtB]⟩ =
        mWitness.dx 2 (([5] : List ℝ).get ⟨0, by simp⟩)
            (([7] : List ℝ).get ⟨0, by simp⟩) -
          1 / (1 : ℝ) ^ 2 * mWitness.dt 2 (([5] : List ℝ).get ⟨0, by simp⟩)
            (([7] : List ℝ).get ⟨0, by simp⟩) :=
  ⟨⟨by simp [pde_loss, dfdxB, dfdtB], Nat.one_pos, Nat.one_pos⟩,
    pde_residual_pointwise mWitness [5] [7] 1 0 (by simp [pde_loss, dfdxB, dfdtB])
      Nat.one_pos Nat.one_pos⟩

/-- C4.  On the grids the script builds, the left-boundary residual is
`f(x0, t)` at every sampled `t` (the constant `x0` broadcast over the shape
of `t_idx`), and the right-boundary residual is `f(x1, t)` — even though
the code forms the constants from the first and last entries of the
flattened meshgrid (`x[0]`, `x[-1]`) rather than from the domain bounds:
those entries equal the bounds. -/
theorem boundary_residuals_are_domain_bounds (m : Model) (x0 x1 t0 t1 : ℝ)
    (nx nt : ℕ) (t_idx : List ℝ) (hnx : 2 ≤ nx) (hnt : 1 ≤ nt) :
    boundary_loss_x0 m (buildGrids x0 x1 nx t0 t1 nt).1.data t_idx =
        t_idx.map (fun b => m.f x0 b) ∧
      boundary_loss_x1 m (buildGrids x0 x1 nx t0 t1 nt).1.data t_idx =
        t_idx.map (fun b => m.f x1 b) := by
  have hts : linspace t0 t1 nt ≠ [] := by
    intro hnil
    have := linspace_length t0 t1 nt
    rw [hnil] at this
    simp at this
    omega
  have hxs : linspace x0 x1 nx ≠ [] := by
    intro hnil
    have := linspace_length x0 x1 nx
    rw [hnil] at this
    simp at this
    omega
  have hgrid : (buildGrids x0 x1 nx t0 t1 nt).1.data =
      meshgridX (linspace x0 x1 nx) (linspace t0 t1 nt) := rfl
  have h0 : (buildGrids x0 x1 nx t0 t1 nt).1.data.headD 0 = x0 := by
    rw [hgrid, meshgridX_headD _ _ hts, linspace_headD _ _ _ (by omega)]
  have h1 : (buildGrids x0 x1 nx t0 t1 nt).1.data.getLastD 0 = x1 := by
    rw [hgrid, meshgridX_getLastD _ _ hxs hts, linspace_getLastD _ _ _ hnx]
  constructor
  · rw [boundary_loss_x0, h0]
    exact evalB_map_left m (fun _ => x0) t_idx
  · rw [boundary_loss_x1, h1]
    exact evalB_map_left m (fun _ => x1) t_idx

/-- Witness for C4 on the concrete domain of the script
(`[0,1] × [0,1]`, 100 × 150 points). -/
theorem boundary_residuals_are_domain_bounds_witness :
    (2 ≤ 100 ∧ 1 ≤ 150) ∧
      (boundary_loss_x0 mWitness (buildGrids 0 1 100 0 1 150).1.data [0.5] =
          ([0.5] : List ℝ).map (fun b => mWitness.f 0 b) ∧
        boundary_loss_x1 mWitness (buildGrids 0 1 100 0 1 150).1.data [0.5] =
          ([0.5] : List ℝ).map (fun b => mWitness.f 1 b)) :=
  ⟨⟨by omega, by omega⟩,
    boundary_residuals_are_domain_bounds mWitness 0 1 0 1 100 150 [0.5]
      (by omega) (by omega)⟩

/-- C5.  The initial-value residual is `f(x, 0) − 0.5·sin(2πx)` at every
sampled `x`, with the time input held at the zero tensor built by
`t_initialOf`, which is itself tracked; and the initial-derivative residual
is the order-1 time derivative at that same zero time tensor. -/
theorem initial_residuals (m : Model) (x_idx : List ℝ) (b : Bool) :
    initial_loss_f m x_idx =
        x_idx.map (fun a => m.f a 0 - 0.5 * Real.sin (2 * Real.pi * a)) ∧
      initial_loss_df m x_idx = x_idx.map (fun a => m.dt 1 a 0) ∧
      (t_initialOf ⟨x_idx, b⟩).tracked = true ∧
      (t_initialOf ⟨x_idx, b⟩).data = zerosLike x_idx := by
  refine ⟨?_, ?_, rfl, rfl⟩
  · rw [initial_loss_f, zerosLike, evalB_map_right, initial_condition,
      List.zipWith_map, List.zipWith_same]
    refine List.map_congr_left (fun a _ => ?_)
    ring
  · rw [initial_loss_df, dfdtB, zerosLike, List.zipWith_map_right,
      List.zipWith_same]

/-- C6.  Collocation sampling is deterministic (the same arguments rebuild
the same grids), the flattened interior grids have exactly `nx·nt` points,
the edge grids have exactly `nx` and `nt` evenly spaced points over their
domain bounds, and both edge grids are strictly increasing when
`nx, nt ≥ 2` and the lower bounds are below the upper bounds. -/
theorem sampler_deterministic_sizes_strictly_increasing
    (x0 x1 t0 t1 : ℝ) (nx nt : ℕ) (hnx : 2 ≤ nx) (hnt : 2 ≤ nt)
    (hx01 : x0 < x1) (ht01 : t0 < t1) :
    buildGrids x0 x1 nx t0 t1 nt = buildGrids x0 x1 nx t0 t1 nt ∧
      (buildGrids x0 x1 nx t0 t1 nt).1.data.length = nx * nt ∧
      (buildGrids x0 x1 nx t0 t1 nt).2.1.data.length = nx * nt ∧
      (buildGrids x0 x1 nx t0 t1 nt).2.2.1.data.length = nx ∧
      (buildGrids x0 x1 nx t0 t1 nt).2.2.2.data.length = nt ∧
      (buildGrids x0 x1 nx t0 t1 nt).2.2.1.data.Pairwise (· < ·) ∧
      (buildGrids x0 x1 nx t0 t1 nt).2.2.2.data.Pairwise (· < ·) ∧
      (∀ (i : ℕ) (hi1 : i + 1 < (linspace x0 x1 nx).length)
        (hi : i < (linspace x0 x1 nx).length),
        (linspace x0 x1 nx).get ⟨i + 1, hi1⟩ - (linspace x0 x1 nx).get ⟨i, hi⟩ =
          (x1 - x0) / ((nx - 1 : ℕ) : ℝ)) ∧
      (∀ (i : ℕ) (hi1 : i + 1 < (linspace t0 t1 nt).length)
        (hi : i < (linspace t0 t1 nt).length),
        (linspace t0 t1 nt).get ⟨i + 1, hi1⟩ - (linspace t0 t1 nt).get ⟨i, hi⟩ =
          (t1 - t0) / ((nt - 1 : ℕ) : ℝ)) := by
  refine ⟨rfl, ?_, ?_, linspace_length x0 x1 nx, linspace_length t0 t1 nt,
    linspace_pairwise_lt x0 x1 nx hnx hx01,
    linspace_pairwise_lt t0 t1 nt hnt ht01,
    fun i hi1 hi => linspace_evenly_spaced x0 x1 nx i hi1 hi,
    fun i hi1 hi => linspace_evenly_spaced t0 t1 nt i hi1 hi⟩
  · show (meshgridX (linspace x0 x1 nx) (linspace t0 t1 nt)).length = nx * nt
    rw [meshgridX_length, linspace_length, linspace_length]
  · show (meshgridT (linspace x0 x1 nx) (linspace t0 t1 nt)).length = nx * nt
    rw [meshgridT_length, linspace_length, linspace_length]

/-- Witness for C6 on the concrete domain of the script. -/
theorem sampler_deterministic_sizes_strictly_increasing_witness :
    ((2 : ℕ) ≤ 100 ∧ (2 : ℕ) ≤ 150 ∧ (0 : ℝ) < 1) ∧
      ((buildGrids 0 1 100 0 1 150).1.data.length = 100 * 150 ∧
        (buildGrids 0 1 100 0 1 150).2.2.1.data.length = 100 ∧
        (buildGrids 0 1 100 0 1 150).2.2.1.data.Pairwise (· < ·)) :=
  ⟨⟨by omega, by omega, zero_lt_one⟩,
    (sampler_deterministic_sizes_strictly_increasing 0 1 0 1 100 150
      (by omega) (by omega) zero_lt_one zero_lt_one).2.1,
    (sampler_deterministic_sizes_strictly_increasing 0 1 0 1 100 150
      (by omega) (by omega) zero_lt_one zero_lt_one).2.2.2.1,
    (sampler_deterministic_sizes_strictly_increasing 0 1 0 1 100 150
      (by omega) (by omega) zero_lt_one zero_lt_one).2.2.2.2.2.1⟩

/-- The known analytic function `f(x,t) = x² · t³` as a graph. -/
def knownF : Expr := .mul (.mul .X .X) (.mul .T (.mul .T .T))

theorem dfSym_two (e : Expr) (v : Var) :
    dfSym e v 2 = derivE v (derivE v e) := rfl

/-- C7, counterexample.  At the sampled point `(x, t) = (2, 1)` the
derivative helper with `order = 2` with respect to `t` returns
`6·x²·t = 24`, not the claimed `6·x·t = 12`. -/
theorem df_order_two_known_function_claim_false :
    dfBatch knownF .T 2 [(2 : ℝ)] [(1 : ℝ)] ≠
      (([(2 : ℝ)].zip [(1 : ℝ)]).map (fun p => 6 * p.1 * p.2)) := by
  rw [dfBatch, dfSym_two, evalBatch]
  intro h
  simp [knownF, derivE, evalE] at h
  norm_num at h

/-- C7, amended.  With the model replaced by the known analytic function
`f(x,t) = x²·t³`, the derivative helper with `order = 2` returns `2·t³` at
every sampled point when taken with respect to `x`, and `6·x²·t` (the true
second time derivative, not the claimed `6·x·t`) at every sampled point
when taken with respect to `t`. -/
theorem df_order_two_on_known_function (xs ts : List ℝ) :
    dfBatch knownF .X 2 xs ts = (xs.zip ts).map (fun p => 2 * p.2 ^ 3) ∧
      dfBatch knownF .T 2 xs ts = (xs.zip ts).map (fun p => 6 * p.1 ^ 2 * p.2) := by
  constructor <;>
  · rw [dfBatch, dfSym_two, evalBatch]
    refine List.map_congr_left (fun p _ => ?_)
    simp [knownF, derivE, evalE]
    ring

/-- C3.  For the equal-length `[N,1]` outputs and inputs this program
feeds to the helper: `df(output, input_var, order)` returns a tensor of the
shape of `input_var`; the `grad_outputs` vector `ones_like(input_var)`
coincides with the all-ones weighting of the output's elements; and a
reverse-mode pass under that weighting is exactly the batched elementwise
derivative. -/
theorem df_shape_and_ones_weighting (e : Expr) (v : Var) (order : ℕ)
    (xs ts : List ℝ) (h : xs.length = ts.length) :
    (dfBatch e v order xs ts).length = (inputOf v xs ts).length ∧
      onesLike (inputOf v xs ts) = onesLike (evalBatch e xs ts) ∧
      gradPass e v (onesLike (inputOf v xs ts)) xs ts =
        evalBatch (derivE v e) xs ts := by
  refine ⟨?_, ?_, gradPass_ones e v xs ts h⟩
  · rw [dfBatch, evalBatch, List.length_map, List.length_zip, h, min_self]
    cases v <;> simp [inputOf, h]
  · rw [onesLike_eq_replicate, onesLike_eq_replicate, evalBatch,
      List.length_map, List.length_zip, h, min_self]
    cases v <;> simp [inputOf, h]

/-- Witness for C3 on a concrete graph and concrete equal-length tensors. -/
theorem df_shape_and_ones_weighting_witness :
    ([(1 : ℝ), 2].length = [(3 : ℝ), 4].length) ∧
      ((dfBatch (.mul .X .T) .X 1 [(1 : ℝ), 2] [(3 : ℝ), 4]).length =
          (inputOf .X [(1 : ℝ), 2] [(3 : ℝ), 4]).length ∧
        onesLike (inputOf .X [(1 : ℝ), 2] [(3 : ℝ), 4]) =
          onesLike (evalBatch (.mul .X .T) [(1 : ℝ), 2] [(3 : ℝ), 4]) ∧
        gradPass (.mul .X .T) .X (onesLike (inputOf .X [(1 : ℝ), 2] [(3 : ℝ), 4]))
            [(1 : ℝ), 2] [(3 : ℝ), 4] =
          evalBatch (derivE .X (.mul .X .T)) [(1 : ℝ), 2] [(3 : ℝ), 4]) :=
  ⟨rfl, df_shape_and_ones_weighting (.mul .X .T) .X 1 [(1 : ℝ), 2] [(3 : ℝ), 4] rfl⟩

/-- C8, counterexample.  The diagnostic line the loop prints at epoch 0
reads `epoch: 0, loss: <value>`, not the claimed form
`epoch=<k>, loss=<value>`. -/
theorem progress_line_form_claim_false :
    logLine 0 "0.123456" ≠ "epoch=0, loss=0.123456" := by
  decide

/-- C8, amended.  A textual progress line of the form
`epoch: <k>, loss: <value>` — reporting the current epoch index and the
current scalar loss value — is emitted exactly at those epochs `k` of the
3000-epoch run with `k % 300 == 0` (including epoch 0) and at no other
epoch. -/
theorem progress_line_cadence (fmt : ℕ → String) (k : ℕ) :
    ((∃ s, (k, s) ∈ trainerLog 3000 300 fmt) ↔ k < 3000 ∧ k % 300 = 0) ∧
      ∀ s, (k, s) ∈ trainerLog 3000 300 fmt → s = logLine k (fmt k) := by
  have hmem : ∀ s, (k, s) ∈ trainerLog 3000 300 fmt ↔
      k < 3000 ∧ k % 300 = 0 ∧ s = logLine k (fmt k) := by
    intro s
    rw [trainerLog, List.mem_filterMap]
    constructor
    · rintro ⟨ep, hep, hf⟩
      rw [List.mem_range] at hep
      by_cases h : ep % 300 = 0
      · rw [if_pos h] at hf
        obtain ⟨h1, h2⟩ := Prod.mk.injEq .. ▸ Option.some.inj hf
        subst h1
        exact ⟨hep, h, h2.symm⟩
      · rw [if_neg h] at hf
        exact absurd hf (by simp)
    · rintro ⟨hk, hm, rfl⟩
      exact ⟨k, List.mem_range.mpr hk, by rw [if_pos hm]⟩
  constructor
  · constructor
    · rintro ⟨s, hs⟩
      obtain ⟨h1, h2, _⟩ := (hmem s).mp hs
      exact ⟨h1, h2⟩
    · rintro ⟨hk, hm⟩
      exact ⟨logLine k (fmt k), (hmem _).mpr ⟨hk, hm, rfl⟩⟩
  · intro s hs
    exact ((hmem s).mp hs).2.2

/-- Witness for C8 (amended): epoch 300 of the run is logged. -/
theorem progress_line_cadence_witness :
    ∃ s, (300, s) ∈ trainerLog 3000 300 (fun _ => "0.1") :=
  ((progress_line_cadence (fun _ => "0.1") 300).1).mpr ⟨by omega, by omega⟩

/-- C9.  The training loop always terminates: it performs exactly the
configured 3000 epochs — each consisting of loss computation, gradient
clearing, one backward pass and one optimizer update, with no retry path —
and then stops, its epoch counter having advanced by exactly 3000. -/
theorem trainer_runs_exactly_3000_epochs {P : Type} (lossOf : P → ℝ)
    (update : P → ℝ → P) (s0 : TrainState P) :
    (trainLoop (trainStep lossOf update) 3000 s0).epoch = s0.epoch + 3000 ∧
      (trainSchedule 3000).length = 3000 ∧
      ∀ entry ∈ trainSchedule 3000,
        entry.2 = [TrainPhase.lossComputation, TrainPhase.gradientClearing,
          TrainPhase.backwardPass, TrainPhase.optimizerUpdate] := by
  refine ⟨trainLoop_epoch lossOf update 3000 s0, ?_, ?_⟩
  · rw [trainSchedule, List.length_map, List.length_range]
  · intro entry h
    rw [trainSchedule, List.mem_map] at h
    obtain ⟨ep, _, rfl⟩ := h
    rfl

/-- Witness for C9 at a concrete parameter type and optimizer. -/
theorem trainer_runs_exactly_3000_epochs_witness :
    (trainLoop (trainStep (fun _ : ℕ => (0 : ℝ)) (fun p _ => p)) 3000
        ⟨0, 0⟩).epoch = (TrainState.mk (0 : ℕ) 0).epoch + 3000 ∧
      (trainSchedule 3000).length = 3000 ∧
      ∀ entry ∈ trainSchedule 3000,
        entry.2 = [TrainPhase.lossComputation, TrainPhase.gradientClearing,
          TrainPhase.backwardPass, TrainPhase.optimizerUpdate] :=
  trainer_runs_exactly_3000_epochs (fun _ : ℕ => (0 : ℝ)) (fun p _ => p) ⟨0, 0⟩

/-- C10.  In the training run, every tensor a derivative is extracted
against inside `compute_loss` is tracked: the grid tensors the sampler
builds carry `requires_grad`, and the zero time tensor is created tracked
before the forward pass consumes it — so the graph-disconnected error
branch of the autograd call is unreachable and `compute_loss` always takes
the ok branch on the sampler's grids. -/
theorem autograd_error_branch_unreachable (m : Model) (x0 x1 t0 t1 C : ℝ)
    (nx nt : ℕ) :
    (buildGrids x0 x1 nx t0 t1 nt).1.tracked = true ∧
      (buildGrids x0 x1 nx t0 t1 nt).2.1.tracked = true ∧
      (t_initialOf (buildGrids x0 x1 nx t0 t1 nt).2.2.1).tracked = true ∧
      (compute_loss m (buildGrids x0 x1 nx t0 t1 nt).1
          (buildGrids x0 x1 nx t0 t1 nt).2.1
          (buildGrids x0 x1 nx t0 t1 nt).2.2.1
          (buildGrids x0 x1 nx t0 t1 nt).2.2.2 C).isOk = true := by
  refine ⟨rfl, rfl, rfl, ?_⟩
  rw [compute_loss_eq_ok m _ _ _ _ C rfl rfl]
  rfl

end PINN
